import Mathlib

/-!
Verification development for the NovaPort-MCP workspace engine.

The definitions below are shallow embeddings of the Python source:
JSON values and Python dicts become an inductive `JsonValue` and
association lists with unique keys, the singleton-context update path
(`conport/services/context_service.py` together with the history
listener in `novaport_mcp/services/history_service.py`) becomes an
explicit state transition, and the service/tool functions for batch
ingest, links, custom data, search and deletion become pure Lean
functions over explicit row lists.  Machine-level concerns (SQL
engine, ORM sessions) are rendered by their observable semantics:
committed row lists and event traces.
-/

set_option maxRecDepth 4000

namespace NovaPort

/-- JSON value tree, mirroring the `Dict[str, Any]` / JSON columns of the
source.  Numbers are modelled as integers (every concrete value in the
repository's scenarios is an integer). -/
inductive JsonValue where
  | null : JsonValue
  | bool : Bool → JsonValue
  | num : Int → JsonValue
  | str : String → JsonValue
  | arr : List JsonValue → JsonValue
  | obj : List (String × JsonValue) → JsonValue

/-- A Python dict with string keys, as stored in the JSON `content`
columns: an association list (insertion order is the list order, as in
Python 3.7+ dicts). -/
abbrev JDict := List (String × JsonValue)

/-- Python `d.get(k)` / `k in d` lookup: the value at the first
occurrence of the key. -/
def dlookup (d : JDict) (k : String) : Option JsonValue :=
  match d with
  | [] => none
  | (k', v) :: rest => if k' = k then some v else dlookup rest k

/-- Python `d[k] = v`: replace the value at the existing occurrence of
the key in place, else append the new pair at the end. -/
def dset (d : JDict) (k : String) (v : JsonValue) : JDict :=
  match d with
  | [] => [(k, v)]
  | (k', v') :: rest => if k' = k then (k, v) :: rest else (k', v') :: dset rest k v

/-- Python `d.pop(k, None)`: drop the occurrence of the key, if any. -/
def dremove (d : JDict) (k : String) : JDict :=
  match d with
  | [] => []
  | (k', v') :: rest => if k' = k then rest else (k', v') :: dremove rest k

/-- Keys of a dict. -/
def dkeys (d : JDict) : List String := d.map Prod.fst

/-- Every key of the first dict occurs in the second. -/
def objKeysSub (xs ys : List (String × JsonValue)) : Bool :=
  xs.all (fun kv => (dlookup ys kv.1).isSome)

mutual

/-- Python `==` on JSON values: structural on scalars and lists, and
order-insensitive key/value comparison on dicts. -/
def jsonEqb : JsonValue → JsonValue → Bool
  | .null, .null => true
  | .bool a, .bool b => a == b
  | .num a, .num b => a == b
  | .str a, .str b => a == b
  | .arr xs, .arr ys => jsonListEqb xs ys
  | .obj xs, .obj ys => jsonObjLeb xs ys && objKeysSub ys xs
  | _, _ => false

/-- Elementwise Python `==` on JSON arrays. -/
def jsonListEqb : List JsonValue → List JsonValue → Bool
  | [], [] => true
  | x :: xs, y :: ys => jsonEqb x y && jsonListEqb xs ys
  | _, _ => false

/-- Every entry of the first dict is present in the second with an
equal value. -/
def jsonObjLeb : List (String × JsonValue) → List (String × JsonValue) → Bool
  | [], _ => true
  | (k, v) :: rest, ys =>
      (match dlookup ys k with
       | some w => jsonEqb v w
       | none => false) && jsonObjLeb rest ys

end

/-- Python `==` on two dicts (deep equality, order-insensitive). -/
def dictEqb (a b : JDict) : Bool :=
  jsonObjLeb a b && objKeysSub b a

/-- The keys of an association list are pairwise distinct. -/
def dictKeysNodup (d : List (String × JsonValue)) : Bool :=
  match d with
  | [] => true
  | (k, _) :: rest => rest.all (fun kv => !(kv.1 == k)) && dictKeysNodup rest

mutual

/-- The value is a faithful image of a Python value: every object in it
has pairwise-distinct keys (Python dicts cannot hold duplicates). -/
def jsonWF : JsonValue → Bool
  | .null => true
  | .bool _ => true
  | .num _ => true
  | .str _ => true
  | .arr xs => jsonListWF xs
  | .obj kvs => dictKeysNodup kvs && jsonObjWF kvs

/-- Well-formedness of every element of an array. -/
def jsonListWF : List JsonValue → Bool
  | [] => true
  | x :: xs => jsonWF x && jsonListWF xs

/-- Well-formedness of every value of an object. -/
def jsonObjWF : List (String × JsonValue) → Bool
  | [] => true
  | (_, v) :: rest => jsonWF v && jsonObjWF rest

end

/-- A dict is well-formed when its keys are distinct and its values are
well-formed. -/
def dictWF (d : JDict) : Bool := dictKeysNodup d && jsonObjWF d

/-! ## Singleton context updates and the history interceptor

`conport/services/context_service.py` (`update_context`) assigns a new
`content` value and commits only when the new value differs from the
stored one; the `after_update` listener installed by
`novaport_mcp/services/history_service.py` (`_add_history`) then inserts
one history row, with `version` one above the highest stored version
(`SELECT version ORDER BY version DESC LIMIT 1`, `or 0`), `content`
equal to the pre-update value, and `change_source`
`"<EntityName> Update"`, before the transaction commits. -/

/-- One row of `product_context_history` / `active_context_history`. -/
structure HistoryRow where
  version : Nat
  content : JDict
  change_source : String

/-- Committed state of one singleton context together with its history
table. -/
structure ContextState where
  content : JDict
  history : List HistoryRow

/-- Payload of `schemas/context.py` `ContextUpdate` (both optional
fields, guarded by the model validator below). -/
structure ContextUpdate where
  content : Option JDict
  patch_content : Option JDict

/-- The `check_content_or_patch` model validator: exactly one of
`content` / `patch_content` must be present. -/
def check_content_or_patch (content patch_content : Option JDict) :
    Except String ContextUpdate :=
  if content.isNone && patch_content.isNone then
    .error "Either content or patch_content must be provided."
  else if content.isSome && patch_content.isSome then
    .error "Provide either content or patch_content, not both."
  else
    .ok ⟨content, patch_content⟩

/-- Python's `value == "__DELETE__"` test in `update_context`. -/
def isDeleteMarker (v : JsonValue) : Bool :=
  match v with
  | .str s => s == "__DELETE__"
  | _ => false

/-- One iteration of the patch loop in `update_context`: delete the key
on the `__DELETE__` marker, otherwise assign it. -/
def apply_patch_step (d : JDict) (kv : String × JsonValue) : JDict :=
  if isDeleteMarker kv.2 then dremove d kv.1 else dset d kv.1 kv.2

/-- The `for key, value in update_data.patch_content.items()` loop of
`update_context`. -/
def apply_patch (d : JDict) (p : JDict) : JDict :=
  p.foldl apply_patch_step d

/-- The value `new_content` computed by `update_context` before the
change check: full replacement, else shallow patch, else the current
content. -/
def new_content (current : JDict) (u : ContextUpdate) : JDict :=
  match u.content with
  | some c => c
  | none =>
    match u.patch_content with
    | some p => apply_patch current p
    | none => current

/-- The `latest_version` query of `_add_history`: highest stored
version, `0` when the history table is empty. -/
def latest_version (h : List HistoryRow) : Nat :=
  h.foldl (fun a r => max a r.version) 0

/-- The row insertion of `_add_history`, firing with the pre-update
content after a committed content change. -/
def add_history (change_source : String) (old_content : JDict)
    (h : List HistoryRow) : List HistoryRow :=
  h ++ [⟨latest_version h + 1, old_content, change_source⟩]

/-- The committed effect of `update_context` on one singleton context:
when the computed content differs (Python `!=`) from the stored one,
the content is replaced and the `after_update` listener appends one
history row within the same transaction; otherwise the state is
untouched. -/
def update_context (entity : String) (s : ContextState) (u : ContextUpdate) :
    ContextState :=
  let newC := new_content s.content u
  if dictEqb newC s.content then s
  else ⟨newC, add_history (entity ++ " Update") s.content s.history⟩

/-- Modelled from the spec: the per-key effect of a shallow-merge patch
(`"for every (key, value), if value == \"__DELETE__\" remove the key,
else assign it"`), folded left over the patch entries.  Used only to
characterise `apply_patch`, which is the embedding of the source. -/
def patch_spec_effect (p : JDict) (k : String) (orig : Option JsonValue) :
    Option JsonValue :=
  p.foldl
    (fun acc kv =>
      if kv.1 = k then (if isDeleteMarker kv.2 then none else some kv.2) else acc)
    orig

/-! ## Lemmas about dict operations -/

theorem dlookup_dset (d : JDict) (k : String) (v : JsonValue) (k' : String) :
    dlookup (dset d k v) k' = if k' = k then some v else dlookup d k' := by
  induction d with
  | nil =>
    by_cases h : k' = k
    · simp [dset, dlookup, h]
    · simp [dset, dlookup, h, Ne.symm h]
  | cons kv rest ih =>
    obtain ⟨k0, v0⟩ := kv
    by_cases h0 : k0 = k
    · subst h0
      by_cases h1 : k' = k0
      · simp [dset, dlookup, h1]
      · simp [dset, dlookup, h1, Ne.symm h1]
    · by_cases h1 : k' = k0
      · subst h1
        simp [dset, dlookup, h0, Ne.symm h0]
      · simp [dset, dlookup, h0, Ne.symm h1, ih]

theorem dlookup_dremove_ne (d : JDict) (k k' : String) (h : k' ≠ k) :
    dlookup (dremove d k) k' = dlookup d k' := by
  induction d with
  | nil => simp [dremove]
  | cons kv rest ih =>
    obtain ⟨k0, v0⟩ := kv
    by_cases h0 : k0 = k
    · subst h0
      simp [dremove, dlookup, Ne.symm h]
    · by_cases h1 : k0 = k'
      · subst h1
        simp [dremove, dlookup, h0]
      · simp [dremove, dlookup, h0, h1, ih]

theorem dictKeysNodup_cons (k : String) (v : JsonValue) (rest : JDict) :
    dictKeysNodup ((k, v) :: rest) = true ↔
      (∀ kv ∈ rest, kv.1 ≠ k) ∧ dictKeysNodup rest = true := by
  simp [dictKeysNodup, List.all_eq_true]

theorem dlookup_eq_none_of_all_ne (d : JDict) (k : String)
    (h : ∀ kv ∈ d, kv.1 ≠ k) : dlookup d k = none := by
  induction d with
  | nil => simp [dlookup]
  | cons kv rest ih =>
    obtain ⟨k0, v0⟩ := kv
    have h0 : k0 ≠ k := h (k0, v0) (by simp)
    simp [dlookup, h0]
    exact ih (fun kv hkv => h kv (by simp [hkv]))

theorem dlookup_dremove_self (d : JDict) (k : String)
    (h : dictKeysNodup d = true) : dlookup (dremove d k) k = none := by
  induction d with
  | nil => simp [dremove, dlookup]
  | cons kv rest ih =>
    obtain ⟨k0, v0⟩ := kv
    rw [dictKeysNodup_cons] at h
    by_cases h0 : k0 = k
    · subst h0
      simp only [dremove, if_pos rfl]
      exact dlookup_eq_none_of_all_ne rest k0 h.1
    · simp [dremove, h0, dlookup, ih h.2]

theorem dset_of_lookup_eq (d : JDict) (k : String) (v : JsonValue)
    (h : dlookup d k = some v) : dset d k v = d := by
  induction d with
  | nil => simp [dlookup] at h
  | cons kv rest ih =>
    obtain ⟨k0, v0⟩ := kv
    by_cases h0 : k0 = k
    · subst h0
      simp [dlookup] at h
      simp [dset, h]
    · simp [dlookup, h0] at h
      simp [dset, h0, ih h]

theorem dremove_of_lookup_none (d : JDict) (k : String)
    (h : dlookup d k = none) : dremove d k = d := by
  induction d with
  | nil => simp [dremove]
  | cons kv rest ih =>
    obtain ⟨k0, v0⟩ := kv
    by_cases h0 : k0 = k
    · subst h0
      simp [dlookup] at h
    · simp [dlookup, h0] at h
      simp [dremove, h0, ih h]

theorem mem_dset (d : JDict) (k : String) (v : JsonValue)
    (kv : String × JsonValue) (h : kv ∈ dset d k v) : kv ∈ d ∨ kv = (k, v) := by
  induction d with
  | nil => simp [dset] at h; simp [h]
  | cons kv0 rest ih =>
    obtain ⟨k0, v0⟩ := kv0
    by_cases h0 : k0 = k
    · subst h0
      simp [dset] at h
      rcases h with h | h
      · right; simp [h]
      · left; simp [h]
    · simp [dset, h0] at h
      rcases h with h | h
      · left; simp [h]
      · rcases ih h with h' | h'
        · left; simp [h']
        · right; exact h'

theorem mem_dremove (d : JDict) (k : String)
    (kv : String × JsonValue) (h : kv ∈ dremove d k) : kv ∈ d := by
  induction d with
  | nil => simp [dremove] at h
  | cons kv0 rest ih =>
    obtain ⟨k0, v0⟩ := kv0
    by_cases h0 : k0 = k
    · subst h0
      simp [dremove] at h
      simp [h]
    · simp [dremove, h0] at h
      rcases h with h | h
      · simp [h]
      · simp [ih h]

theorem dictKeysNodup_dset (d : JDict) (k : String) (v : JsonValue)
    (h : dictKeysNodup d = true) : dictKeysNodup (dset d k v) = true := by
  induction d with
  | nil => simp [dset, dictKeysNodup]
  | cons kv0 rest ih =>
    obtain ⟨k0, v0⟩ := kv0
    rw [dictKeysNodup_cons] at h
    by_cases h0 : k0 = k
    · subst h0
      simp only [dset, if_pos rfl]
      exact (dictKeysNodup_cons k0 v rest).mpr h
    · simp only [dset, if_neg h0]
      refine (dictKeysNodup_cons k0 v0 (dset rest k v)).mpr ⟨?_, ih h.2⟩
      intro kv hkv
      rcases mem_dset rest k v kv hkv with h' | h'
      · exact h.1 kv h'
      · simp [h']
        exact fun hh => h0 hh.symm

theorem dictKeysNodup_dremove (d : JDict) (k : String)
    (h : dictKeysNodup d = true) : dictKeysNodup (dremove d k) = true := by
  induction d with
  | nil => simp [dremove, dictKeysNodup]
  | cons kv0 rest ih =>
    obtain ⟨k0, v0⟩ := kv0
    rw [dictKeysNodup_cons] at h
    by_cases h0 : k0 = k
    · subst h0
      simp only [dremove, if_pos rfl]
      exact h.2
    · simp only [dremove, if_neg h0]
      refine (dictKeysNodup_cons k0 v0 (dremove rest k)).mpr ⟨?_, ih h.2⟩
      intro kv hkv
      exact h.1 kv (mem_dremove rest k kv hkv)

theorem apply_patch_nil (d : JDict) : apply_patch d [] = d := rfl

theorem apply_patch_cons (d : JDict) (kv : String × JsonValue) (p : JDict) :
    apply_patch d (kv :: p) = apply_patch (apply_patch_step d kv) p := rfl

theorem dlookup_apply_patch_step_ne (d : JDict) (kv : String × JsonValue)
    (k : String) (h : kv.1 ≠ k) :
    dlookup (apply_patch_step d kv) k = dlookup d k := by
  unfold apply_patch_step
  by_cases hdel : isDeleteMarker kv.2
  · simp [hdel, dlookup_dremove_ne d kv.1 k (Ne.symm h)]
  · simp [hdel, dlookup_dset, Ne.symm h]

theorem dlookup_apply_patch_not_mem (p d : JDict) (k : String)
    (h : ∀ kv ∈ p, kv.1 ≠ k) :
    dlookup (apply_patch d p) k = dlookup d k := by
  induction p generalizing d with
  | nil => rfl
  | cons kv p ih =>
    rw [apply_patch_cons]
    rw [ih (apply_patch_step d kv) (fun kv' hkv' => h kv' (by simp [hkv']))]
    exact dlookup_apply_patch_step_ne d kv k (h kv (by simp))

theorem dictKeysNodup_apply_patch (p d : JDict)
    (h : dictKeysNodup d = true) : dictKeysNodup (apply_patch d p) = true := by
  induction p generalizing d with
  | nil => exact h
  | cons kv p ih =>
    rw [apply_patch_cons]
    refine ih (apply_patch_step d kv) ?_
    unfold apply_patch_step
    by_cases hdel : isDeleteMarker kv.2
    · simp [hdel, dictKeysNodup_dremove d kv.1 h]
    · simp [hdel, dictKeysNodup_dset d kv.1 kv.2 h]

theorem apply_patch_idem (p d : JDict)
    (hp : dictKeysNodup p = true) (hd : dictKeysNodup d = true) :
    apply_patch (apply_patch d p) p = apply_patch d p := by
  induction p generalizing d with
  | nil => rfl
  | cons kv p ih =>
    obtain ⟨k, v⟩ := kv
    rw [dictKeysNodup_cons] at hp
    rw [apply_patch_cons, apply_patch_cons]
    have hd1 : dictKeysNodup (apply_patch_step d (k, v)) = true := by
      unfold apply_patch_step
      by_cases hdel : isDeleteMarker v
      · simp [hdel, dictKeysNodup_dremove d k hd]
      · simp [hdel, dictKeysNodup_dset d k v hd]
    have hstep : apply_patch_step (apply_patch (apply_patch_step d (k, v)) p) (k, v)
        = apply_patch (apply_patch_step d (k, v)) p := by
      have hlook : dlookup (apply_patch (apply_patch_step d (k, v)) p) k
          = dlookup (apply_patch_step d (k, v)) k :=
        dlookup_apply_patch_not_mem p _ k hp.1
      by_cases hdel : isDeleteMarker v
      · have hstepd : ∀ e : JDict, apply_patch_step e (k, v) = dremove e k :=
          fun e => by simp [apply_patch_step, hdel]
        rw [hstepd] at hlook
        rw [hstepd, hstepd]
        refine dremove_of_lookup_none _ k ?_
        rw [hlook]
        exact dlookup_dremove_self d k hd
      · have hsteps : ∀ e : JDict, apply_patch_step e (k, v) = dset e k v :=
          fun e => by simp [apply_patch_step, hdel]
        rw [hsteps] at hlook
        rw [hsteps, hsteps]
        refine dset_of_lookup_eq _ k v ?_
        rw [hlook, dlookup_dset]
        simp
    rw [hstep]
    exact ih (apply_patch_step d (k, v)) hp.2 hd1

theorem dlookup_of_mem_nodup (d : JDict) (hnd : dictKeysNodup d = true)
    (k : String) (v : JsonValue) (h : (k, v) ∈ d) : dlookup d k = some v := by
  induction d with
  | nil => simp at h
  | cons kv0 rest ih =>
    obtain ⟨k0, v0⟩ := kv0
    rw [dictKeysNodup_cons] at hnd
    rcases List.mem_cons.mp h with h' | h'
    · rw [Prod.mk.injEq] at h'
      simp [dlookup, h'.1, h'.2]
    · have hne : k0 ≠ k := by
        intro hk
        exact hnd.1 (k, v) h' (by simp [hk])
      simp [dlookup, hne, ih hnd.2 h']

theorem jsonListEqb_refl_of (xs : List JsonValue)
    (h : ∀ x ∈ xs, jsonEqb x x = true) : jsonListEqb xs xs = true := by
  induction xs with
  | nil => rfl
  | cons x xs ih =>
    simp only [jsonListEqb, Bool.and_eq_true]
    exact ⟨h x (by simp), ih (fun y hy => h y (by simp [hy]))⟩

theorem jsonObjLeb_of_forall (xs ys : List (String × JsonValue))
    (h : ∀ kv ∈ xs, ∃ w, dlookup ys kv.1 = some w ∧ jsonEqb kv.2 w = true) :
    jsonObjLeb xs ys = true := by
  induction xs with
  | nil => rfl
  | cons kv xs ih =>
    obtain ⟨k, v⟩ := kv
    obtain ⟨w, hw, hew⟩ := h (k, v) (by simp)
    simp only [jsonObjLeb, hw, Bool.and_eq_true]
    exact ⟨hew, ih (fun kv' hkv' => h kv' (by simp [hkv']))⟩

theorem jsonObjWF_forall (d : List (String × JsonValue))
    (h : jsonObjWF d = true) : ∀ kv ∈ d, jsonWF kv.2 = true := by
  induction d with
  | nil => simp
  | cons kv0 rest ih =>
    obtain ⟨k0, v0⟩ := kv0
    simp only [jsonObjWF, Bool.and_eq_true] at h
    intro kv hkv
    rcases List.mem_cons.mp hkv with h' | h'
    · rw [h']; exact h.1
    · exact ih h.2 kv h'

theorem jsonListWF_forall (xs : List JsonValue)
    (h : jsonListWF xs = true) : ∀ x ∈ xs, jsonWF x = true := by
  induction xs with
  | nil => simp
  | cons x xs ih =>
    simp only [jsonListWF, Bool.and_eq_true] at h
    intro y hy
    rcases List.mem_cons.mp hy with h' | h'
    · rw [h']; exact h.1
    · exact ih h.2 y h'

theorem jsonEqb_refl_sized : ∀ (n : Nat) (v : JsonValue),
    sizeOf v ≤ n → jsonWF v = true → jsonEqb v v = true := by
  intro n
  induction n with
  | zero =>
    intro v hv _
    exact absurd hv (by cases v <;> simp)
  | succ n ih =>
    intro v hsize hwf
    match v with
    | .null => rfl
    | .bool b => simp [jsonEqb]
    | .num i => simp [jsonEqb]
    | .str s => simp [jsonEqb]
    | .arr xs =>
      simp only [jsonEqb]
      refine jsonListEqb_refl_of xs (fun x hx => ?_)
      have hx1 : sizeOf x < sizeOf xs := List.sizeOf_lt_of_mem hx
      have hx2 : sizeOf (JsonValue.arr xs) = 1 + sizeOf xs := by simp
      refine ih x (by omega) ?_
      exact jsonListWF_forall xs (by simpa [jsonWF] using hwf) x hx
    | .obj kvs =>
      simp only [jsonWF, Bool.and_eq_true] at hwf
      simp only [jsonEqb, Bool.and_eq_true]
      constructor
      · refine jsonObjLeb_of_forall kvs kvs (fun kv hkv => ?_)
        refine ⟨kv.2, ?_, ?_⟩
        · exact dlookup_of_mem_nodup kvs hwf.1 kv.1 kv.2 hkv
        · have h1 : sizeOf kv < sizeOf kvs := List.sizeOf_lt_of_mem hkv
          have h2 : sizeOf kv.2 < sizeOf kv := by
            obtain ⟨a, b⟩ := kv
            simp
          have h3 : sizeOf (JsonValue.obj kvs) = 1 + sizeOf kvs := by simp
          refine ih kv.2 (by omega) ?_
          exact jsonObjWF_forall kvs hwf.2 kv hkv
      · simp only [objKeysSub, List.all_eq_true]
        intro kv hkv
        rw [dlookup_of_mem_nodup kvs hwf.1 kv.1 kv.2 hkv]
        rfl

theorem jsonEqb_refl (v : JsonValue) (h : jsonWF v = true) :
    jsonEqb v v = true :=
  jsonEqb_refl_sized (sizeOf v) v le_rfl h

theorem dictEqb_refl (d : JDict) (h : dictWF d = true) : dictEqb d d = true := by
  simp only [dictWF, Bool.and_eq_true] at h
  simp only [dictEqb, Bool.and_eq_true]
  constructor
  · refine jsonObjLeb_of_forall d d (fun kv hkv => ?_)
    exact ⟨kv.2, dlookup_of_mem_nodup d h.1 kv.1 kv.2 hkv,
      jsonEqb_refl kv.2 (jsonObjWF_forall d h.2 kv hkv)⟩
  · simp only [objKeysSub, List.all_eq_true]
    intro kv hkv
    rw [dlookup_of_mem_nodup d h.1 kv.1 kv.2 hkv]
    rfl

theorem jsonObjWF_of_forall (d : List (String × JsonValue))
    (h : ∀ kv ∈ d, jsonWF kv.2 = true) : jsonObjWF d = true := by
  induction d with
  | nil => rfl
  | cons kv0 rest ih =>
    obtain ⟨k0, v0⟩ := kv0
    simp only [jsonObjWF, Bool.and_eq_true]
    exact ⟨h (k0, v0) (by simp), ih (fun kv hkv => h kv (by simp [hkv]))⟩

theorem jsonObjWF_apply_patch (p d : JDict)
    (hd : jsonObjWF d = true) (hp : jsonObjWF p = true) :
    jsonObjWF (apply_patch d p) = true := by
  induction p generalizing d with
  | nil => exact hd
  | cons kv p ih =>
    simp only [jsonObjWF] at hp
    obtain ⟨k0, v0⟩ := kv
    simp only [Bool.and_eq_true] at hp
    rw [apply_patch_cons]
    refine ih (apply_patch_step d (k0, v0)) ?_ hp.2
    unfold apply_patch_step
    by_cases hdel : isDeleteMarker v0
    · simp only [hdel, if_pos]
      exact jsonObjWF_of_forall _
        (fun kv hkv => jsonObjWF_forall d hd kv (mem_dremove d k0 kv hkv))
    · simp only [hdel, if_neg, Bool.false_eq_true, not_false_iff]
      refine jsonObjWF_of_forall _ (fun kv hkv => ?_)
      rcases mem_dset d k0 v0 kv hkv with h' | h'
      · exact jsonObjWF_forall d hd kv h'
      · rw [h']; exact hp.1

theorem patch_spec_effect_nil (k : String) (orig : Option JsonValue) :
    patch_spec_effect [] k orig = orig := rfl

theorem patch_spec_effect_cons (kv : String × JsonValue) (p : JDict)
    (k : String) (orig : Option JsonValue) :
    patch_spec_effect (kv :: p) k orig =
      patch_spec_effect p k
        (if kv.1 = k then (if isDeleteMarker kv.2 then none else some kv.2)
         else orig) := rfl

theorem dlookup_apply_patch_spec (p d : JDict) (k : String)
    (hd : dictKeysNodup d = true) :
    dlookup (apply_patch d p) k = patch_spec_effect p k (dlookup d k) := by
  induction p generalizing d with
  | nil => rfl
  | cons kv p ih =>
    obtain ⟨k0, v0⟩ := kv
    rw [apply_patch_cons, patch_spec_effect_cons]
    have hd1 : dictKeysNodup (apply_patch_step d (k0, v0)) = true := by
      unfold apply_patch_step
      by_cases hdel : isDeleteMarker v0
      · simp [hdel, dictKeysNodup_dremove d k0 hd]
      · simp [hdel, dictKeysNodup_dset d k0 v0 hd]
    rw [ih (apply_patch_step d (k0, v0)) hd1]
    congr 1
    by_cases hk : k0 = k
    · subst hk
      unfold apply_patch_step
      by_cases hdel : isDeleteMarker v0
      · simp only [hdel, if_pos]
        simp [dlookup_dremove_self d k0 hd]
      · simp only [hdel, if_neg, Bool.false_eq_true, not_false_iff]
        simp [dlookup_dset]
    · rw [dlookup_apply_patch_step_ne d (k0, v0) k hk]
      simp [hk]

/-! ## Claims C1, C2, C3: singleton context update semantics -/

/-- End-to-end patch scenario from the spec: three successive
`update_product_context(patch_content=...)` calls. -/
def nova_patch_1 : JDict := [("project", .str "Nova"), ("version", .num 1)]

/-- Second patch of the scenario. -/
def nova_patch_2 : JDict := [("version", .num 2), ("status", .str "alpha")]

/-- Third patch of the scenario: deletes the `status` key. -/
def nova_patch_3 : JDict := [("status", .str "__DELETE__")]

/-- State after the three patch calls, starting from the auto-created
empty product context. -/
def nova_scenario_final : ContextState :=
  update_context "ProductContext"
    (update_context "ProductContext"
      (update_context "ProductContext" ⟨[], []⟩ ⟨none, some nova_patch_1⟩)
      ⟨none, some nova_patch_2⟩)
    ⟨none, some nova_patch_3⟩

/-- C1: a successful singleton-context update whose content changes
appends exactly one history row in the same transaction, with version
`max(existing) + 1` (so `1` on an empty history table), content equal
to the pre-update value and change source `"<EntityName> Update"`. -/
theorem context_history_on_change (entity : String) (s : ContextState)
    (u : ContextUpdate)
    (h : dictEqb (new_content s.content u) s.content = false) :
    (update_context entity s u).history
        = s.history
          ++ [⟨latest_version s.history + 1, s.content, entity ++ " Update"⟩]
    ∧ (update_context entity s u).history.length = s.history.length + 1
    ∧ (s.history = [] →
        (update_context entity s u).history
          = [⟨1, s.content, entity ++ " Update"⟩]) := by
  have hmain : (update_context entity s u).history
      = s.history
        ++ [⟨latest_version s.history + 1, s.content, entity ++ " Update"⟩] := by
    unfold update_context
    simp only [h, Bool.false_eq_true, if_false, add_history]
  refine ⟨hmain, by rw [hmain]; simp, ?_⟩
  intro hh
  rw [hmain, hh]
  simp [latest_version]

/-- Witness for `context_history_on_change` at a concrete update of the
empty product context. -/
theorem context_history_on_change_witness :
    dictEqb (new_content ([] : JDict) ⟨some [("x", JsonValue.num 1)], none⟩) [] = false
    ∧ (update_context "ProductContext" ⟨[], []⟩
        ⟨some [("x", JsonValue.num 1)], none⟩).history
        = [⟨1, [], "ProductContext Update"⟩] := by
  refine ⟨by decide, ?_⟩
  exact (context_history_on_change "ProductContext" ⟨[], []⟩
    ⟨some [("x", JsonValue.num 1)], none⟩ (by decide)).2.2 rfl

/-- C2: the context update accepts exactly one of `content` /
`patch_content` (neither or both is a validation error); `content`
replaces the stored object; `patch_content` shallow-merges key by key,
deleting on the `"__DELETE__"` marker and assigning otherwise; and the
three-patch scenario ends with content
`{"project": "Nova", "version": 2}`. -/
theorem context_update_semantics (entity : String) (s : ContextState)
    (c d p : JDict) (k : String)
    (hrep : dictEqb c s.content = false)
    (hd : dictKeysNodup d = true) :
    (check_content_or_patch none none).isOk = false
    ∧ (check_content_or_patch (some c) (some p)).isOk = false
    ∧ check_content_or_patch (some c) none = .ok ⟨some c, none⟩
    ∧ check_content_or_patch none (some p) = .ok ⟨none, some p⟩
    ∧ (update_context entity s ⟨some c, none⟩).content = c
    ∧ dlookup (apply_patch d p) k = patch_spec_effect p k (dlookup d k)
    ∧ dictEqb nova_scenario_final.content
        [("project", .str "Nova"), ("version", .num 2)] = true := by
  refine ⟨rfl, rfl, rfl, rfl, ?_, dlookup_apply_patch_spec p d k hd, by decide⟩
  unfold update_context
  simp only [new_content, hrep, Bool.false_eq_true, if_false]

/-- Witness for `context_update_semantics` at concrete inputs. -/
theorem context_update_semantics_witness :
    dictEqb [("x", JsonValue.num 1)] ([] : JDict) = false
    ∧ dictKeysNodup [("y", JsonValue.num 2)] = true
    ∧ (update_context "ProductContext" ⟨[], []⟩
        ⟨some [("x", JsonValue.num 1)], none⟩).content = [("x", JsonValue.num 1)]
    ∧ dictEqb nova_scenario_final.content
        [("project", .str "Nova"), ("version", .num 2)] = true := by
  have h := context_update_semantics "ProductContext" ⟨[], []⟩
    [("x", JsonValue.num 1)] [("y", JsonValue.num 2)] [] "y"
    (by decide) (by decide)
  exact ⟨by decide, by decide, h.2.2.2.2.1, h.2.2.2.2.2.2⟩

/-- C3: an update whose computed content deep-equals the stored content
leaves the state untouched (no content write, no history row), and in
particular re-applying the same `patch_content` is a no-op: the second
call changes neither the content nor the history. -/
theorem context_noop_update (entity : String) (s : ContextState)
    (u : ContextUpdate) (p : JDict)
    (heq : dictEqb (new_content s.content u) s.content = true)
    (hp : dictKeysNodup p = true)
    (hwfp : jsonObjWF p = true)
    (hwfs : dictWF s.content = true) :
    update_context entity s u = s
    ∧ update_context entity (update_context entity s ⟨none, some p⟩)
        ⟨none, some p⟩
        = update_context entity s ⟨none, some p⟩ := by
  have hnodup : dictKeysNodup s.content = true := by
    have := hwfs
    simp only [dictWF, Bool.and_eq_true] at this
    exact this.1
  constructor
  · unfold update_context
    simp only [heq, if_true]
  · by_cases hA : dictEqb (apply_patch s.content p) s.content = true
    · have hs1 : update_context entity s ⟨none, some p⟩ = s := by
        unfold update_context
        simp only [new_content, hA, if_true]
      rw [hs1]
      exact hs1
    · rw [Bool.not_eq_true] at hA
      have hs1 : update_context entity s ⟨none, some p⟩
          = ⟨apply_patch s.content p,
             add_history (entity ++ " Update") s.content s.history⟩ := by
        unfold update_context
        simp only [new_content, hA, Bool.false_eq_true, if_false]
      have hwf1 : dictWF (apply_patch s.content p) = true := by
        simp only [dictWF, Bool.and_eq_true]
        refine ⟨dictKeysNodup_apply_patch p s.content hnodup, ?_⟩
        refine jsonObjWF_apply_patch p s.content ?_ hwfp
        simp only [dictWF, Bool.and_eq_true] at hwfs
        exact hwfs.2
      rw [hs1]
      unfold update_context
      simp only [new_content]
      rw [apply_patch_idem p s.content hp hnodup]
      simp only [dictEqb_refl _ hwf1, if_true]

/-- Witness for `context_noop_update`: re-applying the patch
`{"a": 1}` to an initially empty product context. -/
theorem context_noop_update_witness :
    dictEqb (new_content ([] : JDict) ⟨none, some []⟩) [] = true
    ∧ update_context "ProductContext"
        (update_context "ProductContext" ⟨[], []⟩ ⟨none, some [("a", JsonValue.num 1)]⟩)
        ⟨none, some [("a", JsonValue.num 1)]⟩
        = update_context "ProductContext" ⟨[], []⟩ ⟨none, some [("a", JsonValue.num 1)]⟩ := by
  refine ⟨by decide, ?_⟩
  exact (context_noop_update "ProductContext" ⟨[], []⟩ ⟨none, some []⟩
    [("a", JsonValue.num 1)] (by decide) (by decide) (by decide) (by decide)).2

/-! ## Claim C4: batch ingest (`meta_service.batch_log_items` and the
`batch_log_items` MCP tool in `conport/main.py`) -/

/-- Pydantic `DecisionCreate`: required `summary: str` with
`min_length=1`, optional `rationale` / `implementation_details`
strings, optional `tags: List[str]` defaulting to `[]`. -/
structure DecisionCreate where
  summary : String
  rationale : Option String
  implementation_details : Option String
  tags : Option (List String)

/-- Pydantic validation of an `Optional[str]` field: absent or `null`
become `None`, strings pass, anything else is rejected. -/
def validateOptStr (d : JDict) (field : String) : Except String (Option String) :=
  match dlookup d field with
  | none => .ok none
  | some .null => .ok none
  | some (.str s) => .ok (some s)
  | some _ => .error (field ++ ": Input should be a valid string")

/-- Collect a JSON array of strings, rejecting other element shapes. -/
def asStrList : List JsonValue → Option (List String)
  | [] => some []
  | .str s :: rest =>
    match asStrList rest with
    | some ss => some (s :: ss)
    | none => none
  | _ => none

/-- Pydantic validation of the `tags: Optional[List[str]] = []` field. -/
def validateTags (d : JDict) : Except String (Option (List String)) :=
  match dlookup d "tags" with
  | none => .ok (some [])
  | some .null => .ok none
  | some (.arr xs) =>
    match asStrList xs with
    | some ss => .ok (some ss)
    | none => .error "tags: Input should be a valid string"
  | some _ => .error "tags: Input should be a valid list"

/-- Pydantic validation of one decision item against `DecisionCreate`:
`summary` must be a string of length at least one. -/
def validateDecisionCreate (d : JDict) : Except String DecisionCreate := do
  let summary ←
    match dlookup d "summary" with
    | none => Except.error "summary: Field required"
    | some (.str s) =>
      if s.length ≥ 1 then Except.ok s
      else Except.error "summary: String should have at least 1 character"
    | some _ => Except.error "summary: Input should be a valid string"
  let rationale ← validateOptStr d "rationale"
  let impl ← validateOptStr d "implementation_details"
  let tags ← validateTags d
  Except.ok ⟨summary, rationale, impl, tags⟩

/-- Result record built by `meta_service.batch_log_items`. -/
structure BatchResult where
  succeeded : Nat
  failed : Nat
  details : List (JDict × String)

/-- The per-item loop of `meta_service.batch_log_items` for
`item_type = "decision"`: validate each item against the create schema,
count successes, record `(item, error)` for each failure and continue;
the result carries `succeeded`, `failed = |details|` and the failure
details in item order. -/
def batch_log_items : List JDict → BatchResult
  | [] => ⟨0, 0, []⟩
  | item :: rest =>
    match validateDecisionCreate item with
    | .ok _ =>
      let r := batch_log_items rest
      ⟨r.succeeded + 1, r.failed, r.details⟩
    | .error e =>
      let r := batch_log_items rest
      ⟨r.succeeded, r.failed + 1, (item, e) :: r.details⟩

/-- The dict literal returned by `meta_service.batch_log_items`:
`{"succeeded": ..., "failed": ..., "details": [...]}`. -/
def batch_result_dict (r : BatchResult) : JDict :=
  [("succeeded", .num r.succeeded),
   ("failed", .num r.failed),
   ("details", .arr (r.details.map
      (fun de => .obj [("item", .obj de.1), ("error", .str de.2)])))]

/-- Python truthiness, as used by `if result["errors"]:`. -/
def jsonTruthy : JsonValue → Bool
  | .null => false
  | .bool b => b
  | .num n => n != 0
  | .str s => s.length != 0
  | .arr xs => xs.length != 0
  | .obj kvs => kvs.length != 0

/-- The `MCPError` envelope `{"error": ..., "details": ...}`. -/
def mcp_error (msg : String) (details : JsonValue) : JsonValue :=
  .obj [("error", .str msg), ("details", details)]

/-- The `batch_log_items` MCP tool of `conport/main.py`: it calls the
service and then subscripts the returned dict with the key `"errors"`
(`if result["errors"]:`); a missing key is a Python `KeyError`, which
no surrounding handler catches (only `ValidationError` is). -/
def main_batch_log_items (items : List JDict) : Except String JsonValue :=
  let result := batch_result_dict (batch_log_items items)
  match dlookup result "errors" with
  | none => .error "KeyError: errors"
  | some v =>
    if jsonTruthy v then
      .ok (mcp_error "Some items failed validation" (.obj result))
    else
      .ok (.obj result)

/-- The mixed-validity decision batch of the spec scenario: items 2
(missing summary) and 4 (null summary) are invalid. -/
def batch_scenario_items : List JDict :=
  [[("summary", .str "A")],
   [("rationale", .str "no summary")],
   [("summary", .str "B")],
   [("summary", .null)],
   [("summary", .str "C")]]

/-- C4 (code bug): the service-level batch loop continues past per-item
failures and reports `succeeded = 3`, `failed = 2` with one detail per
failure on the mixed five-item batch, with `failed = |details|` and
`succeeded + failed = |items|` on every input — but the MCP tool reads
the non-existent key `"errors"` from the service result, so every tool
call (the scenario included) raises `KeyError` instead of returning
`{succeeded, failed, details}`. -/
theorem batch_tool_keyerror :
    (batch_log_items batch_scenario_items).succeeded = 3
    ∧ (batch_log_items batch_scenario_items).failed = 2
    ∧ (batch_log_items batch_scenario_items).details.length = 2
    ∧ main_batch_log_items batch_scenario_items = .error "KeyError: errors"
    ∧ (∀ items : List JDict,
        main_batch_log_items items = .error "KeyError: errors")
    ∧ (∀ items : List JDict,
        (batch_log_items items).failed = (batch_log_items items).details.length
        ∧ (batch_log_items items).succeeded + (batch_log_items items).failed
            = items.length) := by
  refine ⟨by decide, by decide, by decide, by rfl, ?_, ?_⟩
  · intro items
    simp [main_batch_log_items, batch_result_dict, dlookup]
  · intro items
    induction items with
    | nil => exact ⟨rfl, rfl⟩
    | cons item rest ih =>
      cases hv : validateDecisionCreate item <;>
        simp [batch_log_items, hv, ih.1] <;> omega

/-! ## Claim C5: semantic search with tag filters

`decision_service.create` builds the embedding metadata
`{"item_type": "decision", "summary": ..., "tags": [...]}` and calls
`vector_service.upsert_embedding`, which keeps only scalar metadata
values (`isinstance(v, (str, int, float, bool))`); the list-valued
`tags` entry is therefore dropped before storage.
`semantic_search_conport` builds a Chroma `where` filter from its
parameters and queries the store.  The filter evaluator below is a
generous model of Chroma matching in which `$contains` succeeds when
the metadata key holds a string containing the needle and fails when
the key is absent (the installed Chroma actually rejects `$contains`
inside a metadata `where` altogether, which also returns no results). -/

/-- Substring test over the character lists of two strings. -/
def strContains (hay needle : String) : Bool :=
  decide (needle.data <:+: hay.data)

/-- The metadata sanitization of `vector_service.upsert_embedding`:
keep only string/number/boolean values. -/
def sanitize_metadata (md : JDict) : JDict :=
  md.filter (fun kv =>
    match kv.2 with
    | .str _ => true
    | .num _ => true
    | .bool _ => true
    | _ => false)

/-- The metadata dict built by `decision_service.create`. -/
def decision_metadata (summary : String) (tags : List String) : JDict :=
  [("item_type", .str "decision"),
   ("summary", .str summary),
   ("tags", .arr (tags.map .str))]

/-- Chroma `where`-filter expressions as composed by
`semantic_search_conport`. -/
inductive WhereCond where
  | inCond (key : String) (vals : List String)
  | containsCond (key : String) (needle : String)
  | andCond (cs : List WhereCond)
  | orCond (cs : List WhereCond)

mutual

/-- Filter evaluation against one metadata dict; an absent key fails
the condition. -/
def matchCond (md : JDict) : WhereCond → Bool
  | .inCond k vs =>
    match dlookup md k with
    | some (.str s) => vs.contains s
    | _ => false
  | .containsCond k n =>
    match dlookup md k with
    | some (.str s) => strContains s n
    | _ => false
  | .andCond cs => matchAll md cs
  | .orCond cs => matchAny md cs

/-- Conjunction of filter conditions (`$and`). -/
def matchAll (md : JDict) : List WhereCond → Bool
  | [] => true
  | c :: cs => matchCond md c && matchAll md cs

/-- Disjunction of filter conditions (`$or`). -/
def matchAny (md : JDict) : List WhereCond → Bool
  | [] => false
  | c :: cs => matchCond md c || matchAny md cs

end

/-- Filter composition of `semantic_search_conport` in
`conport/main.py`: `$in` on `item_type`, `$in` on `category` (only when
`custom_data` is among the item types), one `$contains` per
`filter_tags_include_all` tag, a `$or` of `$contains` for
`filter_tags_include_any`, all joined under a top-level `$and`; no
conditions yield a null filter. -/
def build_semantic_filter (itemTypes categories tagsAll tagsAny :
    Option (List String)) : Option WhereCond :=
  let c1 := match itemTypes with
    | some ts => [WhereCond.inCond "item_type" ts]
    | none => []
  let c2 := match categories with
    | some cs =>
      if (itemTypes.getD []).contains "custom_data"
      then [WhereCond.inCond "category" cs] else []
    | none => []
  let c3 := match tagsAll with
    | some ts => ts.map (fun t => WhereCond.containsCond "tags" t)
    | none => []
  let c4 := match tagsAny with
    | some ts => [WhereCond.orCond (ts.map (fun t => WhereCond.containsCond "tags" t))]
    | none => []
  let conds := c1 ++ c2 ++ c3 ++ c4
  if conds.isEmpty then none else some (.andCond conds)

/-- One record of the per-workspace Chroma collection. -/
structure VectorEntry where
  id : String
  metadata : JDict

/-- The membership content of `vector_service.search`: ids of stored
records whose metadata passes the filter, up to `top_k` many. -/
def vector_search (store : List VectorEntry) (top_k : Nat)
    (filt : Option WhereCond) : List String :=
  ((store.filter (fun e =>
      match filt with
      | none => true
      | some f => matchCond e.metadata f)).map (fun e => e.id)).take top_k

/-- Vector store after logging decision D (id 1, tags `["db","pg"]`)
and decision E (id 2, tags `["frontend"]`). -/
def tag_scenario_store : List VectorEntry :=
  [⟨"decision_1",
    sanitize_metadata (decision_metadata "Use Postgres for storage" ["db", "pg"])⟩,
   ⟨"decision_2",
    sanitize_metadata (decision_metadata "Adopt React for the frontend" ["frontend"])⟩]

/-- The filter built by
`semantic_search_conport(filter_item_types=["decision"],
filter_tags_include_any=["db"])`. -/
def tag_scenario_filter : Option WhereCond :=
  build_semantic_filter (some ["decision"]) none none (some ["db"])

/-- C5 (code bug): the sanitization step of `upsert_embedding` drops
the list-valued `tags` metadata of every logged decision, so the
`$contains`-on-`tags` filter can never match: the scenario search
returns no ids at all, and in particular not `"decision_1"`, where the
claim requires `"decision_1"` to be returned. -/
theorem semantic_search_tag_filter_dead :
    (∀ (summary : String) (tags : List String),
      dlookup (sanitize_metadata (decision_metadata summary tags)) "tags" = none)
    ∧ vector_search tag_scenario_store 5 tag_scenario_filter = []
    ∧ ¬ ("decision_1" ∈ vector_search tag_scenario_store 5 tag_scenario_filter) := by
  have h2 : vector_search tag_scenario_store 5 tag_scenario_filter = [] := rfl
  refine ⟨?_, h2, by rw [h2]; simp⟩
  intro summary tags
  rfl

/-! ## Claim C6: ordering of relational and vector deletes

In `decision_service.delete`, `progress_service.delete` and
`custom_data_service.delete` the code calls
`vector_service.delete_embedding(...)` first and only afterwards
`db.delete(row); db.commit()`.  Inside `delete_embedding` the
`collection.delete` call is wrapped in `try/except` (failures are
logged at warning level and suppressed), so the relational delete runs
regardless of the outcome of the collection-level delete. -/

/-- Observable store events during a delete. -/
inductive DbEvent where
  | vector_delete_attempt
  | relational_delete
  | relational_commit
deriving DecidableEq

/-- Effect trace of `vector_service.delete_embedding`: one vector-store
delete attempt; a failure of `collection.delete` is caught, so the
trace does not depend on the failure flag. -/
def delete_embedding_events (_collection_delete_fails : Bool) : List DbEvent :=
  [.vector_delete_attempt]

/-- Effect trace of `decision_service.delete` when the row exists. -/
def decision_delete_events (collection_delete_fails : Bool) : List DbEvent :=
  delete_embedding_events collection_delete_fails
    ++ [.relational_delete, .relational_commit]

/-- Effect trace of `progress_service.delete` when the row exists. -/
def progress_delete_events (collection_delete_fails : Bool) : List DbEvent :=
  delete_embedding_events collection_delete_fails
    ++ [.relational_delete, .relational_commit]

/-- Effect trace of `custom_data_service.delete` when the row exists. -/
def custom_data_delete_events (collection_delete_fails : Bool) : List DbEvent :=
  delete_embedding_events collection_delete_fails
    ++ [.relational_delete, .relational_commit]

/-- Some occurrence of `a` in the trace is followed, strictly later, by
an occurrence of `b`. -/
def eventBefore (tr : List DbEvent) (a b : DbEvent) : Bool :=
  match tr with
  | [] => false
  | x :: rest => (if x = a then rest.contains b else false) || eventBefore rest a b

/-- C6 counterexample: in the trace of a decision delete the relational
commit is never followed by the vector-store delete attempt, so the
claim "the relational delete is performed and committed before the
vector-store delete is attempted" is false of the code. -/
theorem delete_relational_first_false :
    ¬ (eventBefore (decision_delete_events false)
        DbEvent.relational_commit DbEvent.vector_delete_attempt = true) := by
  decide

/-- C6 amended: for deletes of all three indexed item kinds the
vector-store delete is attempted before the relational delete, which is
in turn followed by the commit; the relational delete and commit happen
even when the collection-level vector delete fails (that failure is
suppressed inside `delete_embedding`). -/
theorem delete_vector_first :
    ∀ fails : Bool,
      eventBefore (decision_delete_events fails)
          DbEvent.vector_delete_attempt DbEvent.relational_delete = true
      ∧ eventBefore (decision_delete_events fails)
          DbEvent.relational_delete DbEvent.relational_commit = true
      ∧ eventBefore (progress_delete_events fails)
          DbEvent.vector_delete_attempt DbEvent.relational_delete = true
      ∧ eventBefore (progress_delete_events fails)
          DbEvent.relational_delete DbEvent.relational_commit = true
      ∧ eventBefore (custom_data_delete_events fails)
          DbEvent.vector_delete_attempt DbEvent.relational_delete = true
      ∧ eventBefore (custom_data_delete_events fails)
          DbEvent.relational_delete DbEvent.relational_commit = true
      ∧ (decision_delete_events fails).contains DbEvent.relational_commit = true := by
  decide

/-! ## Claim C7: full-text search fallback -/

/-- One row of the `decisions` table. -/
structure DecisionRow where
  id : Nat
  timestamp : Nat
  summary : String
  rationale : Option String
  implementation_details : Option String
  tags : List String

/-- One row of the `custom_data` table. -/
structure CustomDataRow where
  id : Nat
  timestamp : Nat
  category : String
  key : String
  value : JsonValue

/-- Embedding of `decision_service.search_fts`: the FTS statement runs inside
`try/except`; on any exception the service falls back to
`query(Decision).filter(summary.contains(query)).limit(limit)`, a LIKE
substring match on `summary`.  The outcome of executing the FTS
statement is passed in explicitly (the virtual table lives in the SQL
engine). -/
def decision_search_fts (fts_outcome : Except String (List DecisionRow))
    (rows : List DecisionRow) (query : String) (limit : Nat) :
    Except String (List DecisionRow) :=
  match fts_outcome with
  | .ok results => .ok results
  | .error _ => .ok ((rows.filter (fun d => strContains d.summary query)).take limit)

/-- Embedding of `custom_data_service.search_fts`: the FTS statement runs with no
surrounding error handling, so a failing FTS query propagates to the
caller unchanged. -/
def custom_data_search_fts (fts_outcome : Except String (List CustomDataRow)) :
    Except String (List CustomDataRow) :=
  fts_outcome

/-- C7 counterexample: when the custom-data FTS query fails (for
example because the `custom_data_fts` virtual table is absent), the
custom-data search propagates the error instead of returning fallback
results, so the claim is false for custom data. -/
theorem custom_data_fts_no_fallback :
    (custom_data_search_fts (.error "no such table: custom_data_fts")).isOk
      = false := rfl

/-- C7 amended: the decision search falls back to the LIKE-style
substring match on `summary` whenever the FTS query fails, while the
custom-data search propagates the FTS failure unchanged. -/
theorem fts_fallback_decisions_only :
    (∀ (e : String) (rows : List DecisionRow) (query : String) (limit : Nat),
      decision_search_fts (.error e) rows query limit
        = .ok ((rows.filter (fun d => strContains d.summary query)).take limit))
    ∧ (∀ e : String,
        custom_data_search_fts (Except.error e) = Except.error e) := by
  exact ⟨fun e rows query limit => rfl, fun e => rfl⟩

/-! ## Claim C8: default list ordering

Both `decision_service.get_multi` and `progress_service.get_multi`
issue `ORDER BY timestamp DESC` with no further sort key, then apply
`OFFSET skip LIMIT limit`.  The SQL sort is modelled as a stable sort
of the table rows (given in rowid order) by descending timestamp:
SQLite returns tied rows in the order of the underlying scan, so ties
keep ascending rowid order rather than the descending id order the
claim asserts. -/

/-- Insert `x` before the first element `y` with `le x y`. -/
def insertStable (le : α → α → Bool) (x : α) : List α → List α
  | [] => [x]
  | y :: ys => if le x y then x :: y :: ys else y :: insertStable le x ys

/-- Stable insertion sort by `le`. -/
def stableSortBy (le : α → α → Bool) : List α → List α
  | [] => []
  | x :: xs => insertStable le x (stableSortBy le xs)

theorem mem_insertStable (le : α → α → Bool) (x : α) (l : List α) (z : α)
    (h : z ∈ insertStable le x l) : z = x ∨ z ∈ l := by
  induction l with
  | nil => simp [insertStable] at h; simp [h]
  | cons y ys ih =>
    by_cases hxy : le x y = true
    · simp [insertStable, hxy] at h
      rcases h with h | h | h
      · exact Or.inl h
      · exact Or.inr (by simp [h])
      · exact Or.inr (by simp [h])
    · simp [insertStable, hxy] at h
      rcases h with h | h
      · exact Or.inr (by simp [h])
      · rcases ih h with h' | h'
        · exact Or.inl h'
        · exact Or.inr (by simp [h'])

theorem pairwise_insertStable (le : α → α → Bool)
    (htotal : ∀ a b, le a b = true ∨ le b a = true)
    (htrans : ∀ a b c, le a b = true → le b c = true → le a c = true)
    (x : α) (l : List α)
    (h : l.Pairwise (fun a b => le a b = true)) :
    (insertStable le x l).Pairwise (fun a b => le a b = true) := by
  induction l with
  | nil => simp [insertStable]
  | cons y ys ih =>
    rw [List.pairwise_cons] at h
    by_cases hxy : le x y = true
    · simp only [insertStable, hxy, if_true]
      rw [List.pairwise_cons]
      refine ⟨?_, List.pairwise_cons.mpr h⟩
      intro z hz
      rcases List.mem_cons.mp hz with h' | h'
      · rw [h']; exact hxy
      · exact htrans x y z hxy (h.1 z h')
    · simp only [insertStable, hxy, Bool.false_eq_true, if_false]
      rw [List.pairwise_cons]
      refine ⟨?_, ih h.2⟩
      intro z hz
      rcases mem_insertStable le x ys z hz with h' | h'
      · rw [h']
        rcases htotal x y with ht | ht
        · exact absurd ht hxy
        · exact ht
      · exact h.1 z h'

theorem pairwise_stableSortBy (le : α → α → Bool)
    (htotal : ∀ a b, le a b = true ∨ le b a = true)
    (htrans : ∀ a b c, le a b = true → le b c = true → le a c = true)
    (l : List α) :
    (stableSortBy le l).Pairwise (fun a b => le a b = true) := by
  induction l with
  | nil => simp [stableSortBy]
  | cons x xs ih =>
    exact pairwise_insertStable le htotal htrans x (stableSortBy le xs) ih

/-- One row of the `progress_entries` table. -/
structure ProgressRow where
  id : Nat
  timestamp : Nat
  status : String
  description : String
  parent_id : Option Nat

/-- The JSON text stored for a tags list (`json.dumps` of a string
list, for tags without embedded quote characters). -/
def decision_tags_json (tags : List String) : String :=
  "[" ++ String.intercalate ", " (tags.map (fun t => "\"" ++ t ++ "\"")) ++ "]"

/-- The `tags.like(f'%"{tag}"%')` filter: substring match of the quoted
tag against the JSON encoding of the stored tag list. -/
def tag_like (tags : List String) (tag : String) : Bool :=
  strContains (decision_tags_json tags) ("\"" ++ tag ++ "\"")

/-- Embedding of `decision_service.get_multi`: optional tag and `since` filters
(skipped for falsy arguments, as in the Python truthiness checks),
then `ORDER BY timestamp DESC OFFSET skip LIMIT limit`. -/
def decision_get_multi (rows : List DecisionRow) (skip limit : Nat)
    (tags_all tags_any : Option (List String)) (since : Option Nat) :
    List DecisionRow :=
  let q1 := match tags_all with
    | some ts =>
      if ts.isEmpty then rows
      else rows.filter (fun d => ts.all (fun t => tag_like d.tags t))
    | none => rows
  let q2 := match tags_any with
    | some ts =>
      if ts.isEmpty then q1
      else q1.filter (fun d => ts.any (fun t => tag_like d.tags t))
    | none => q1
  let q3 := match since with
    | some s => q2.filter (fun d => decide (s ≤ d.timestamp))
    | none => q2
  ((stableSortBy (fun a b => decide (b.timestamp ≤ a.timestamp)) q3).drop skip).take limit

/-- Embedding of `progress_service.get_multi`: optional status, parent and `since`
filters, then `ORDER BY timestamp DESC OFFSET skip LIMIT limit`. -/
def progress_get_multi (rows : List ProgressRow) (skip limit : Nat)
    (status : Option String) (parent_id : Option Nat) (since : Option Nat) :
    List ProgressRow :=
  let q1 := match status with
    | some s =>
      if s.isEmpty then rows else rows.filter (fun p => p.status == s)
    | none => rows
  let q2 := match parent_id with
    | some pid => q1.filter (fun p => p.parent_id == some pid)
    | none => q1
  let q3 := match since with
    | some s => q2.filter (fun p => decide (s ≤ p.timestamp))
    | none => q2
  ((stableSortBy (fun a b => decide (b.timestamp ≤ a.timestamp)) q3).drop skip).take limit

/-- Two decisions sharing one timestamp, inserted in id order. -/
def tie_decision_1 : DecisionRow := ⟨1, 100, "first decision", none, none, []⟩

/-- The later row of the timestamp tie. -/
def tie_decision_2 : DecisionRow := ⟨2, 100, "second decision", none, none, []⟩

/-- C8 counterexample: on two rows with equal timestamps the default
listing keeps the underlying row order (id ascending), so the output is
not sorted by `timestamp DESC, id DESC` as the claim states. -/
theorem get_multi_no_id_tiebreak :
    decision_get_multi [tie_decision_1, tie_decision_2] 0 100 none none none
      = [tie_decision_1, tie_decision_2]
    ∧ ¬ List.Pairwise
        (fun a b : DecisionRow =>
          b.timestamp < a.timestamp ∨ (b.timestamp = a.timestamp ∧ b.id < a.id))
        (decision_get_multi [tie_decision_1, tie_decision_2] 0 100 none none none) := by
  have h1 : decision_get_multi [tie_decision_1, tie_decision_2] 0 100 none none none
      = [tie_decision_1, tie_decision_2] := rfl
  refine ⟨h1, ?_⟩
  rw [h1]
  intro hpw
  rw [List.pairwise_cons] at hpw
  have h2 := hpw.1 tie_decision_2 (by simp)
  rcases h2 with h | h
  · exact absurd h (by decide)
  · exact absurd h.2 (by decide)

/-- C8 amended: the default ordering of both list operations is by
timestamp descending only; rows with equal timestamps stay in the
underlying row order (ascending id for rows inserted in id order), with
no id tie-break. -/
theorem get_multi_timestamp_desc :
    (∀ (rows : List DecisionRow) (skip limit : Nat)
        (tags_all tags_any : Option (List String)) (since : Option Nat),
      List.Pairwise (fun a b : DecisionRow => b.timestamp ≤ a.timestamp)
        (decision_get_multi rows skip limit tags_all tags_any since))
    ∧ (∀ (rows : List ProgressRow) (skip limit : Nat)
        (status : Option String) (parent_id : Option Nat) (since : Option Nat),
      List.Pairwise (fun a b : ProgressRow => b.timestamp ≤ a.timestamp)
        (progress_get_multi rows skip limit status parent_id since))
    ∧ decision_get_multi [tie_decision_1, tie_decision_2] 0 100 none none none
        = [tie_decision_1, tie_decision_2] := by
  have hsort : ∀ (β : Type) (ts : β → Nat) (l : List β),
      (stableSortBy (fun a b => decide (ts b ≤ ts a)) l).Pairwise
        (fun a b => ts b ≤ ts a) := by
    intro β ts l
    have h := pairwise_stableSortBy (fun a b => decide (ts b ≤ ts a))
      (fun a b => by
        rcases Nat.le_total (ts b) (ts a) with h | h
        · exact Or.inl (by simpa using h)
        · exact Or.inr (by simpa using h))
      (fun a b c hab hbc => by
        simp only [decide_eq_true_eq] at hab hbc ⊢
        omega)
      l
    exact h.imp (fun hab => by simpa using hab)
  refine ⟨?_, ?_, rfl⟩
  · intro rows skip limit tags_all tags_any since
    unfold decision_get_multi
    exact ((hsort DecisionRow (fun d => d.timestamp) _).sublist
      (List.Sublist.trans (List.take_sublist _ _) (List.drop_sublist _ _))).imp
      (fun h => h)
  · intro rows skip limit status parent_id since
    unfold progress_get_multi
    exact ((hsort ProgressRow (fun p => p.timestamp) _).sublist
      (List.Sublist.trans (List.take_sublist _ _) (List.drop_sublist _ _))).imp
      (fun h => h)

/-! ## Claim C9: link retrieval

`link_service.get_for_item(db, item_type, item_id)` returns all
`ContextLink` rows where the pair occurs as source or as target.  The
`get_linked_items` MCP tool in `conport/main.py` calls it as
`get_for_item(db, item_type, item_id, limit=limit or 50)`, but the
service function declares no `limit` parameter, so Python raises
`TypeError` on argument binding before the body runs. -/

/-- One row of the `context_links` table. -/
structure ContextLink where
  id : Nat
  source_item_type : String
  source_item_id : String
  target_item_type : String
  target_item_id : String
  relationship_type : String
  description : Option String

/-- Embedding of `link_service.get_for_item`: rows whose source or target pair
matches. -/
def get_for_item (rows : List ContextLink) (item_type item_id : String) :
    List ContextLink :=
  rows.filter (fun l =>
    (l.source_item_type == item_type && l.source_item_id == item_id)
    || (l.target_item_type == item_type && l.target_item_id == item_id))

/-- The declared parameters of `link_service.get_for_item`. -/
def get_for_item_params : List String := ["db", "item_type", "item_id"]

/-- Python keyword-argument binding for `get_for_item`: a keyword not
among the declared parameters raises `TypeError` before the body
runs. -/
def call_get_for_item (rows : List ContextLink) (item_type item_id : String)
    (kwargs : List String) : Except String (List ContextLink) :=
  if kwargs.all (fun kw => get_for_item_params.contains kw) then
    .ok (get_for_item rows item_type item_id)
  else
    .error "TypeError: get_for_item() got an unexpected keyword argument"

/-- The `get_linked_items` MCP tool: it always passes the keyword
argument `limit` (`limit=limit or 50`) to `get_for_item`. -/
def main_get_linked_items (rows : List ContextLink)
    (item_type item_id : String) (_limit : Option Nat) :
    Except String (List ContextLink) :=
  call_get_for_item rows item_type item_id ["limit"]

/-- The link of the spec scenario: decision 1 implements progress 2. -/
def scenario_link : ContextLink :=
  ⟨1, "decision", "1", "progress", "2", "implements", none⟩

/-- C9 (code bug): the service returns exactly the rows in which the
pair occurs as source or target — in the scenario both lookups return
the single stored link — but the MCP tool passes the unsupported
`limit` keyword to `get_for_item`, so every `get_linked_items` call
raises `TypeError` instead of returning the rows. -/
theorem get_linked_items_typeerror :
    (∀ (rows : List ContextLink) (t i : String) (lim : Option Nat),
      main_get_linked_items rows t i lim
        = .error "TypeError: get_for_item() got an unexpected keyword argument")
    ∧ get_for_item [scenario_link] "decision" "1" = [scenario_link]
    ∧ get_for_item [scenario_link] "progress" "2" = [scenario_link]
    ∧ (∀ (rows : List ContextLink) (t i : String) (l : ContextLink),
        l ∈ get_for_item rows t i ↔
          l ∈ rows
          ∧ ((l.source_item_type = t ∧ l.source_item_id = i)
             ∨ (l.target_item_type = t ∧ l.target_item_id = i))) := by
  refine ⟨fun rows t i lim => rfl, rfl, rfl, ?_⟩
  intro rows t i l
  simp [get_for_item, List.mem_filter]

/-! ## Claim C10: custom data retrieval by key -/

/-- Embedding of `custom_data_service.get`: the first row matching the `(category,
key)` natural key, if any. -/
def custom_data_get (rows : List CustomDataRow) (category key : String) :
    Option CustomDataRow :=
  rows.find? (fun r => r.category == category && r.key == key)

/-- Embedding of `custom_data_service.get_by_category`: all rows of one category. -/
def custom_data_get_by_category (rows : List CustomDataRow)
    (category : String) : List CustomDataRow :=
  rows.filter (fun r => r.category == category)

/-- The `get_custom_data` MCP tool: with a (truthy) key it builds
`items = [get(db, category, key)]` and the comprehension
`[... for i in items if i]` drops a `None` entry; without a key it
lists the category. -/
def main_get_custom_data (rows : List CustomDataRow) (category : String)
    (key : Option String) : List CustomDataRow :=
  match key with
  | some k =>
    if k.isEmpty then custom_data_get_by_category rows category
    else
      match custom_data_get rows category k with
      | none => []
      | some r => [r]
  | none => custom_data_get_by_category rows category

/-- C10: querying a `(category, key)` pair with no stored row yields
the empty list (never a not-found error), and a stored row yields a
one-element list holding it. -/
theorem get_custom_data_by_key (rows : List CustomDataRow)
    (cat k : String) (hk : ¬ k = "") :
    ((∀ r ∈ rows, ¬ (r.category = cat ∧ r.key = k)) →
      main_get_custom_data rows cat (some k) = [])
    ∧ (∀ r, custom_data_get rows cat k = some r →
        main_get_custom_data rows cat (some k) = [r]) := by
  have hke : k.isEmpty = false := by
    cases he : k.isEmpty
    · rfl
    · exact absurd ((String.isEmpty_iff k).mp he) hk
  constructor
  · intro hnone
    have hfind : custom_data_get rows cat k = none := by
      unfold custom_data_get
      rw [List.find?_eq_none]
      intro r hr
      have := hnone r hr
      simp only [Bool.and_eq_true, beq_iff_eq]
      intro hcat
      rcases hcat with ⟨h1, h2⟩
      exact this ⟨h1, h2⟩
    simp [main_get_custom_data, hke, hfind]
  · intro r hr
    simp [main_get_custom_data, hke, hr]

/-- Witness for `get_custom_data_by_key`: an empty table yields `[]`,
and a table holding the row yields that row. -/
theorem get_custom_data_by_key_witness :
    main_get_custom_data [] "settings" (some "theme") = []
    ∧ main_get_custom_data [⟨1, 0, "settings", "theme", .str "dark"⟩]
        "settings" (some "theme") = [⟨1, 0, "settings", "theme", .str "dark"⟩] := by
  constructor
  · exact (get_custom_data_by_key [] "settings" "theme" (by decide)).1 (by simp)
  · exact (get_custom_data_by_key [⟨1, 0, "settings", "theme", .str "dark"⟩]
      "settings" "theme" (by decide)).2 ⟨1, 0, "settings", "theme", .str "dark"⟩ rfl

end NovaPort
